import Mathlib

/-!
Shallow embedding of the chat-to-command bridge of the GeoGebra Omni UI
(`src/index.tsx`, `handleChatSend` and its helpers), in both its base
variant and its CAS-mode variant, together with proofs of the
specification claims about it.

The embedding models one call to `handleChatSend` as a pure function from
the component state (current input, loading flag, transcript), the engine
adapter (`window.ggbApplet`, possibly absent), and the outcome of the
remote model call, to the resulting state.  JavaScript truthiness of the
relevant fields (empty strings and absent values are falsy) and the
abort-on-throw semantics of `forEach` / `for..of` loops are modelled
explicitly.
-/

namespace GeoGebraOmni

/-- One transcript entry, `{ role, text, isAction }` in the source; entries
created without `isAction` carry the (falsy) default `false`. -/
structure Message where
  role : String
  text : String
  isAction : Bool
deriving DecidableEq

/-- The `commands` field of a tool invocation's `args`: either a genuine
array of command strings, or any non-array value (which the source only
ever inspects through `Array.isArray`). -/
inductive CommandsField where
  | arr (cmds : List String)
  | notArr
deriving DecidableEq

/-- One entry of `response.functionCalls`: a name, the `args.commands`
field and the optional `args.explanation` field. -/
structure FunctionCall where
  name : String
  commands : CommandsField
  explanation : Option String
deriving DecidableEq

/-- The normalized model response: the optional `functionCalls` array and
the optional `text` field.  `none` stands for an absent/undefined field;
`some ""` for `text` is falsy in the source's `if (response.text)`. -/
structure ModelResponse where
  functionCalls : Option (List FunctionCall)
  text : Option String
deriving DecidableEq

/-- The engine adapter (`ggbApplet`): its named objects, the string value
read for a name (`getValueString`), and whether `evalCommand` throws on a
given command string. -/
structure Engine where
  objectNames : List String
  valueString : String → String
  evalThrows : String → Bool

/-- JavaScript `a || b` on an optional string: absent and empty are falsy. -/
def jsOrElse (a : Option String) (b : String) : String :=
  match a with
  | some s => if s = "" then b else s
  | none => b

/-- Whether `pat` occurs at the start of `s` (on character lists). -/
def startsWithL : List Char → List Char → Bool
  | _, [] => true
  | [], _ :: _ => false
  | c :: cs, p :: ps => c = p && startsWithL cs ps

/-- Whether `pat` occurs somewhere in `s` (on character lists). -/
def occursInL (pat : List Char) : List Char → Bool
  | [] => startsWithL [] pat
  | c :: cs => startsWithL (c :: cs) pat || occursInL pat cs

/-- JavaScript `s.includes(pat)`. -/
def jsIncludes (s pat : String) : Bool :=
  occursInL pat.data s.data

/-- The characters of `s` before the first occurrence of `pat`; all of `s`
when `pat` does not occur. -/
def beforeFirstL (pat : List Char) : List Char → List Char
  | [] => []
  | c :: cs => if startsWithL (c :: cs) pat then [] else c :: beforeFirstL pat cs

/-- JavaScript `s.split(pat)[0]`. -/
def splitHead (s pat : String) : String :=
  ⟨beforeFirstL pat.data s.data⟩

/-- JavaScript `s.trim()`: strip whitespace from both ends. -/
def jsTrim (s : String) : String :=
  ⟨((s.data.dropWhile Char.isWhitespace).reverse.dropWhile Char.isWhitespace).reverse⟩

/-- A user transcript entry as built at the start of an accepted turn. -/
def mkUserMsg (t : String) : Message := ⟨"user", t, false⟩

/-- A plain assistant transcript entry (`role: 'ai'`, not an action). -/
def mkAiMsg (t : String) : Message := ⟨"ai", t, false⟩

/-- An action-record assistant entry (`isAction: true`). -/
def mkActionMsg (t : String) : Message := ⟨"ai", t, true⟩

/-- The fixed generic error text of the base variant's catch block. -/
def genericErrorText : String :=
  "Ocorreu um erro ao processar o seu pedido. Por favor, tente novamente ou verifique as instruções."

/-- Fallback summary used when the invocation has no explanation. -/
def actionFallback : String := "Objetos criados no gráfico."

/-- Text of the base variant's action-record entry. -/
def actionText (explanation : Option String) : String :=
  "**Ação executada no GeoGebra:** " ++ jsOrElse explanation actionFallback

/-- The tool name checked against `fc.name`. -/
def toolName : String := "executeGGBCommands"

/-- The engine snapshot sent to the model: one `name: value` line per
object when the adapter is present, the fixed marker `"Nenhum"` otherwise. -/
def objectsSnapshot (ggb : Option Engine) : String :=
  match ggb with
  | some e =>
      String.intercalate "\n" (e.objectNames.map fun n => n ++ ": " ++ e.valueString n)
  | none => "Nenhum"

/-- `commands.forEach(cmd => ggb.evalCommand(cmd))`: dispatches commands
in order; a throwing `evalCommand` aborts the loop after the throwing
command.  Returns the list of commands actually passed to `evalCommand`
and whether the loop threw. -/
def dispatchSeq (e : Engine) : List String → List String × Bool
  | [] => ([], false)
  | c :: rest =>
      if e.evalThrows c then ([c], true)
      else
        let r := dispatchSeq e rest
        (c :: r.1, r.2)

/-- Processing of one function call in the base variant: the invocation is
handled only when its name matches and the adapter is present; a non-array
`commands` field is ignored; on success exactly one action-record entry is
produced.  Returns (new messages, dispatched commands, threw). -/
def processInvocation (ggb : Option Engine) (fc : FunctionCall) :
    List Message × List String × Bool :=
  match ggb with
  | some e =>
      if fc.name = toolName then
        match fc.commands with
        | .arr cmds =>
            let r := dispatchSeq e cmds
            if r.2 then ([], r.1, true)
            else ([mkActionMsg (actionText fc.explanation)], r.1, false)
        | .notArr => ([], [], false)
      else ([], [], false)
  | none => ([], [], false)

/-- The `for (const fc of response.functionCalls)` loop: a thrown
exception aborts the remaining iterations. -/
def processCalls (ggb : Option Engine) : List FunctionCall → List Message × List String × Bool
  | [] => ([], [], false)
  | fc :: rest =>
      let r := processInvocation ggb fc
      if r.2.2 then r
      else
        let r2 := processCalls ggb rest
        (r.1 ++ r2.1, r.2.1 ++ r2.2.1, r2.2.2)

/-- The assistant text entry appended for `response.text` when truthy. -/
def textMsgs : Option String → List Message
  | some t => if t = "" then [] else [mkAiMsg t]
  | none => []

/-- The function-call phase of a successful response: run the loop when
`response.functionCalls` is truthy, do nothing otherwise. -/
def fcPart (ggb : Option Engine) (resp : ModelResponse) :
    List Message × List String × Bool :=
  match resp.functionCalls with
  | some fcs => processCalls ggb fcs
  | none => ([], [], false)

/-- Processing of a successful model response: run the function-call loop,
then (only if nothing threw) append the prose text entry. -/
def processResponse (ggb : Option Engine) (resp : ModelResponse) :
    List Message × List String × Bool :=
  let r := fcPart ggb resp
  if r.2.2 then r
  else (r.1 ++ textMsgs resp.text, r.2.1, false)

/-- Whether the turn's try block throws: either the model call rejects, or
an exception is thrown while processing the response. -/
def turnFails (ggb : Option Engine) (model : Except Unit ModelResponse) : Bool :=
  match model with
  | .error _ => true
  | .ok resp => (processResponse ggb resp).2.2

/-- The observable outcome of one `handleChatSend` call: the resulting
transcript, the commands passed to `evalCommand` in order, the `userText`
and engine snapshot embedded in the outgoing request (`none` when no
remote call was made), and the final loading flag. -/
structure SendResult where
  messages : List Message
  dispatched : List String
  sentUserText : Option String
  sentSnapshot : Option String
  loading : Bool
deriving DecidableEq

/-- The base variant's `handleChatSend`: reject when the trimmed input is
empty or a turn is in flight; otherwise append the user entry, call the
model with the raw input and the engine snapshot, process the response,
append the generic error entry if anything threw, and clear loading. -/
def handleChatSend (input : String) (loading : Bool) (messages : List Message)
    (ggb : Option Engine) (model : Except Unit ModelResponse) : SendResult :=
  if jsTrim input = "" ∨ loading = true then
    { messages := messages, dispatched := [], sentUserText := none,
      sentSnapshot := none, loading := loading }
  else
    let userText := input
    let msgs1 := messages ++ [mkUserMsg userText]
    let snapshot := objectsSnapshot ggb
    match model with
    | .error _ =>
        { messages := msgs1 ++ [mkAiMsg genericErrorText], dispatched := [],
          sentUserText := some userText, sentSnapshot := some snapshot, loading := false }
    | .ok resp =>
        let r := processResponse ggb resp
        if r.2.2 then
          { messages := msgs1 ++ r.1 ++ [mkAiMsg genericErrorText], dispatched := r.2.1,
            sentUserText := some userText, sentSnapshot := some snapshot, loading := false }
        else
          { messages := msgs1 ++ r.1, dispatched := r.2.1,
            sentUserText := some userText, sentSnapshot := some snapshot, loading := false }

/-! The CAS-mode variant differs in the dispatch loop: after each
`evalCommand`, when the active view is `cas` and the command contains
`:=`, the name left of `:=` is read back with `getValueString` and kept
when the value is truthy and contains `=`. -/

/-- `cmd.split(':=')[0].trim()`. -/
def casVarName (cmd : String) : String :=
  jsTrim (splitHead cmd ":=")

/-- The values contributed to `casResults` by one command. -/
def casEnrich (e : Engine) (appType : String) (cmd : String) : List String :=
  if appType = "cas" ∧ jsIncludes cmd ":=" = true then
    let val := e.valueString (casVarName cmd)
    if val ≠ "" ∧ jsIncludes val "=" = true then [val] else []
  else []

/-- The CAS variant's `for (const cmd of commands)` loop: dispatch each
command in order, collecting readback values; a throwing `evalCommand`
aborts the loop.  Returns (dispatched commands, casResults, threw). -/
def casDispatch (e : Engine) (appType : String) :
    List String → List String × List String × Bool
  | [] => ([], [], false)
  | cmd :: rest =>
      if e.evalThrows cmd then ([cmd], [], true)
      else
        let r := casDispatch e appType rest
        (cmd :: r.1, casEnrich e appType cmd ++ r.2.1, r.2.2)

/-- Fallback summary of the CAS variant's action-record entry. -/
def casActionFallback : String := "Os comandos foram enviados para a vista CAS."

/-- The `resultText` block appended beneath the CAS action record. -/
def casResultText (results : List String) : String :=
  if 0 < results.length then
    "\n\n**Resultados no CAS:**\n" ++
      String.intercalate "\n" (results.map fun r => "- " ++ r)
  else ""

/-- Text of the CAS variant's action-record entry. -/
def casActionText (explanation : Option String) (results : List String) : String :=
  "**Ação Executada:** " ++ jsOrElse explanation casActionFallback ++ casResultText results

/-- Processing of one function call in the CAS variant. -/
def casProcessInvocation (ggb : Option Engine) (appType : String) (fc : FunctionCall) :
    List Message × List String × Bool :=
  match ggb with
  | some e =>
      if fc.name = toolName then
        match fc.commands with
        | .arr cmds =>
            let r := casDispatch e appType cmds
            if r.2.2 then ([], r.1, true)
            else ([mkActionMsg (casActionText fc.explanation r.2.1)], r.1, false)
        | .notArr => ([], [], false)
      else ([], [], false)
  | none => ([], [], false)

/-- The readback performed on one `:=` command in CAS mode: the value is
kept exactly when it is nonempty and contains `=`. -/
def casReadback (e : Engine) (cmd : String) : Option String :=
  let v := e.valueString (casVarName cmd)
  if v ≠ "" ∧ jsIncludes v "=" = true then some v else none

/-- An engine whose `evalCommand` throws exactly on the command `"bad"`. -/
def throwingEngine : Engine :=
  { objectNames := [], valueString := fun _ => "", evalThrows := fun c => c == "bad" }

/-- An engine whose `evalCommand` never throws. -/
def benignEngine : Engine :=
  { objectNames := [], valueString := fun _ => "", evalThrows := fun _ => false }

/-- A never-throwing engine for the CAS variant: only the object `x` has a
value, the equation string `x = 2`. -/
def casEngine : Engine :=
  { objectNames := ["x"],
    valueString := fun n => if n = "x" then "x = 2" else "",
    evalThrows := fun _ => false }

/-! Helper lemmas about the dispatch loops and response processing. -/

/-- When no command throws, the `forEach` loop dispatches every command in
order and does not throw. -/
theorem dispatchSeq_ok (e : Engine) (cmds : List String)
    (h : ∀ c ∈ cmds, e.evalThrows c = false) :
    dispatchSeq e cmds = (cmds, false) := by
  induction cmds with
  | nil => rfl
  | cons c rest ih =>
      have hc : e.evalThrows c = false := h c (List.mem_cons_self _ _)
      have hrest : ∀ x ∈ rest, e.evalThrows x = false :=
        fun x hx => h x (List.mem_cons_of_mem _ hx)
      simp [dispatchSeq, hc, ih hrest]

/-- When the first throwing command is `bad`, the loop dispatches exactly
the commands up to and including `bad` and then throws: the commands after
`bad` are never dispatched. -/
theorem dispatchSeq_throw (e : Engine) (pre : List String) (bad : String) (post : List String)
    (hpre : ∀ c ∈ pre, e.evalThrows c = false) (hbad : e.evalThrows bad = true) :
    dispatchSeq e (pre ++ bad :: post) = (pre ++ [bad], true) := by
  induction pre with
  | nil => simp [dispatchSeq, hbad]
  | cons c rest ih =>
      have hc : e.evalThrows c = false := hpre c (List.mem_cons_self _ _)
      have hrest : ∀ x ∈ rest, e.evalThrows x = false :=
        fun x hx => hpre x (List.mem_cons_of_mem _ hx)
      simp [dispatchSeq, hc, ih hrest]

/-- With the engine adapter absent, the function-call loop does nothing. -/
theorem processCalls_none (fcs : List FunctionCall) :
    processCalls none fcs = ([], [], false) := by
  induction fcs with
  | nil => rfl
  | cons fc rest ih => simp [processCalls, processInvocation, ih]

/-- Every entry produced by one invocation is an action record. -/
theorem processInvocation_action (ggb : Option Engine) (fc : FunctionCall) (m : Message)
    (hm : m ∈ (processInvocation ggb fc).1) : m.role = "ai" ∧ m.isAction = true := by
  rcases ggb with _ | e
  · simp [processInvocation] at hm
  · simp only [processInvocation] at hm
    split at hm
    · split at hm
      · split at hm
        · simp at hm
        · simp at hm
          subst hm
          exact ⟨rfl, rfl⟩
      · simp at hm
    · simp at hm

/-- Every entry produced by the function-call loop is an action record. -/
theorem processCalls_action (ggb : Option Engine) (fcs : List FunctionCall) (m : Message)
    (hm : m ∈ (processCalls ggb fcs).1) : m.role = "ai" ∧ m.isAction = true := by
  induction fcs with
  | nil => simp [processCalls] at hm
  | cons fc rest ih =>
      simp only [processCalls] at hm
      split at hm
      · exact processInvocation_action ggb fc m hm
      · rcases List.mem_append.mp hm with h | h
        · exact processInvocation_action ggb fc m h
        · exact ih h

/-- Every entry produced by the function-call phase is an action record. -/
theorem fcPart_action (ggb : Option Engine) (resp : ModelResponse) (m : Message)
    (hm : m ∈ (fcPart ggb resp).1) : m.role = "ai" ∧ m.isAction = true := by
  unfold fcPart at hm
  rcases hfc : resp.functionCalls with _ | fcs
  · rw [hfc] at hm
    simp at hm
  · rw [hfc] at hm
    exact processCalls_action ggb fcs m hm

/-- The prose-text entry, when present, is a plain assistant entry. -/
theorem textMsgs_ai (t : Option String) (m : Message) (hm : m ∈ textMsgs t) :
    m.role = "ai" := by
  cases t with
  | none => simp [textMsgs] at hm
  | some s =>
      simp only [textMsgs] at hm
      split at hm
      · simp at hm
      · simp at hm
        subst hm
        rfl

/-- Every entry appended while processing a successful response has the
assistant role. -/
theorem processResponse_ai (ggb : Option Engine) (resp : ModelResponse) (m : Message)
    (hm : m ∈ (processResponse ggb resp).1) : m.role = "ai" := by
  simp only [processResponse] at hm
  split at hm
  · exact (fcPart_action ggb resp m hm).1
  · rcases List.mem_append.mp hm with h | h
    · exact (fcPart_action ggb resp m h).1
    · exact textMsgs_ai resp.text m h

/-- When processing a successful response throws, every entry appended
before the throw is an action record. -/
theorem processResponse_threw_action (ggb : Option Engine) (resp : ModelResponse)
    (m : Message) (hm : m ∈ (processResponse ggb resp).1) :
    (processResponse ggb resp).2.2 = true → m.role = "ai" ∧ m.isAction = true := by
  intro ht
  cases hf : (fcPart ggb resp).2.2 with
  | false =>
      exfalso
      simp only [processResponse, hf] at ht
      simp at ht
  | true =>
      have hm2 : m ∈ (fcPart ggb resp).1 := by
        simp only [processResponse, hf] at hm
        simpa using hm
      exact fcPart_action ggb resp m hm2

/-- A non-array `commands` field makes the invocation a no-op. -/
theorem processInvocation_notArr (ggb : Option Engine) (name : String) (expl : Option String) :
    processInvocation ggb ⟨name, .notArr, expl⟩ = ([], [], false) := by
  rcases ggb with _ | e
  · rfl
  · simp [processInvocation]

/-- Dropping a non-array invocation from the list does not change the
outcome of the function-call loop. -/
theorem processCalls_drop_notArr (ggb : Option Engine) (l1 l2 : List FunctionCall)
    (name : String) (expl : Option String) :
    processCalls ggb (l1 ++ ⟨name, .notArr, expl⟩ :: l2) = processCalls ggb (l1 ++ l2) := by
  induction l1 with
  | nil => simp [processCalls, processInvocation_notArr]
  | cons fc rest ih => simp [processCalls, ih]

/-- The per-command enrichment, rephrased through the readback function. -/
theorem casEnrich_eq (e : Engine) (appType : String) (c : String) :
    casEnrich e appType c
      = if appType = "cas" ∧ jsIncludes c ":=" = true then (casReadback e c).toList
        else [] := by
  simp only [casEnrich, casReadback]
  split
  · split <;> rfl
  · rfl

/-- When no command throws, the CAS loop dispatches every command in order
and collects exactly the readback values of the `:=` commands whose value
is nonempty and contains `=`; outside CAS mode it collects nothing. -/
theorem casDispatch_ok (e : Engine) (appType : String) (cmds : List String)
    (h : ∀ c ∈ cmds, e.evalThrows c = false) :
    casDispatch e appType cmds
      = (cmds,
         (if appType = "cas" then
            (cmds.filter fun c => jsIncludes c ":=").filterMap (casReadback e)
          else []),
         false) := by
  induction cmds with
  | nil => simp [casDispatch]
  | cons c rest ih =>
      have hc : e.evalThrows c = false := h c (List.mem_cons_self _ _)
      have hrest : ∀ x ∈ rest, e.evalThrows x = false :=
        fun x hx => h x (List.mem_cons_of_mem _ hx)
      by_cases hcas : appType = "cas"
      · subst hcas
        by_cases hinc : jsIncludes c ":=" = true
        · cases hr : casReadback e c with
          | none =>
              simp [casDispatch, hc, ih hrest, casEnrich_eq, hinc, hr, List.filter_cons,
                List.filterMap_cons]
          | some v =>
              simp [casDispatch, hc, ih hrest, casEnrich_eq, hinc, hr, List.filter_cons,
                List.filterMap_cons]
        · simp [casDispatch, hc, ih hrest, casEnrich_eq, hinc, List.filter_cons]
      · simp [casDispatch, hc, ih hrest, casEnrich_eq, hcas]

/-! The claims. -/

/-- C1 is false on the code: with an accepted turn, an available engine and
a batch `["bad", "good"]` whose first command makes `evalCommand` throw,
the command after the failing index is never dispatched — the `forEach`
loop aborts on the exception. -/
theorem C1_batch_not_best_effort :
    jsTrim "go" ≠ "" ∧
    (handleChatSend "go" false [] (some throwingEngine)
        (.ok ⟨some [⟨toolName, .arr ["bad", "good"], none⟩], none⟩)).dispatched = ["bad"] ∧
    "good" ∉ (handleChatSend "go" false [] (some throwingEngine)
        (.ok ⟨some [⟨toolName, .arr ["bad", "good"], none⟩], none⟩)).dispatched := by
  decide

/-- C1 (amended): commands are dispatched in order only up to and including
the first command on which `evalCommand` throws; the commands after it are
not dispatched, the batch produces no action record, a single generic
error entry is appended instead, and the bridge returns to idle. -/
theorem C1_throw_aborts_batch (input : String) (msgs : List Message) (e : Engine)
    (pre : List String) (bad : String) (post : List String) (expl : Option String)
    (hin : jsTrim input ≠ "")
    (hpre : ∀ c ∈ pre, e.evalThrows c = false) (hbad : e.evalThrows bad = true) :
    (handleChatSend input false msgs (some e)
        (.ok ⟨some [⟨toolName, .arr (pre ++ bad :: post), expl⟩], none⟩)).dispatched
      = pre ++ [bad] ∧
    (handleChatSend input false msgs (some e)
        (.ok ⟨some [⟨toolName, .arr (pre ++ bad :: post), expl⟩], none⟩)).messages
      = msgs ++ [mkUserMsg input, mkAiMsg genericErrorText] ∧
    (handleChatSend input false msgs (some e)
        (.ok ⟨some [⟨toolName, .arr (pre ++ bad :: post), expl⟩], none⟩)).loading = false := by
  have hd := dispatchSeq_throw e pre bad post hpre hbad
  refine ⟨?_, ?_, ?_⟩ <;>
    simp [handleChatSend, hin, processResponse, fcPart, processCalls, processInvocation,
      toolName, hd]

/-- Witness for the amended C1 at a concrete input. -/
theorem C1_throw_aborts_batch_witness :
    (jsTrim "x" ≠ "" ∧ (∀ c ∈ ["a"], throwingEngine.evalThrows c = false) ∧
      throwingEngine.evalThrows "bad" = true) ∧
    ((handleChatSend "x" false [] (some throwingEngine)
        (.ok ⟨some [⟨toolName, .arr (["a"] ++ "bad" :: ["z"]), none⟩], none⟩)).dispatched
      = ["a"] ++ ["bad"] ∧
    (handleChatSend "x" false [] (some throwingEngine)
        (.ok ⟨some [⟨toolName, .arr (["a"] ++ "bad" :: ["z"]), none⟩], none⟩)).messages
      = [] ++ [mkUserMsg "x", mkAiMsg genericErrorText] ∧
    (handleChatSend "x" false [] (some throwingEngine)
        (.ok ⟨some [⟨toolName, .arr (["a"] ++ "bad" :: ["z"]), none⟩], none⟩)).loading
      = false) :=
  ⟨⟨by decide, by decide, by decide⟩,
    C1_throw_aborts_batch "x" [] throwingEngine ["a"] "bad" ["z"] none
      (by decide) (by decide) (by decide)⟩

/-- C2 is false on the code: an accepted turn whose model response carries
neither text nor tool invocations appends no assistant, action-record or
error entry at all — the transcript gains only the user turn itself. -/
theorem C2_silent_turn :
    jsTrim "hi" ≠ "" ∧
    (handleChatSend "hi" false [] none (.ok ⟨none, none⟩)).messages = [mkUserMsg "hi"] ∧
    (handleChatSend "hi" false [] none
        (.ok ⟨none, none⟩)).messages.filter (fun m => m.role == "ai") = [] := by
  decide

/-- C2 (amended): every accepted turn grows the transcript by at least the
user turn itself (the turn is never dropped entirely), but a response with
neither text nor invocations yields no entry beyond that user turn. -/
theorem C2_turn_always_recorded (input : String) (msgs : List Message) (ggb : Option Engine)
    (model : Except Unit ModelResponse) (hin : jsTrim input ≠ "") :
    (∃ rest, (handleChatSend input false msgs ggb model).messages
        = msgs ++ mkUserMsg input :: rest) ∧
    (model = .ok ⟨none, none⟩ →
      (handleChatSend input false msgs ggb model).messages = msgs ++ [mkUserMsg input]) := by
  constructor
  · cases model with
    | error err => exact ⟨[mkAiMsg genericErrorText], by simp [handleChatSend, hin]⟩
    | ok resp =>
        cases h22 : (processResponse ggb resp).2.2 with
        | false =>
            exact ⟨(processResponse ggb resp).1, by simp [handleChatSend, hin, h22]⟩
        | true =>
            exact ⟨(processResponse ggb resp).1 ++ [mkAiMsg genericErrorText],
              by simp [handleChatSend, hin, h22]⟩
  · intro hmod
    subst hmod
    simp [handleChatSend, hin, processResponse, fcPart, textMsgs]

/-- Witness for the amended C2 at a concrete input. -/
theorem C2_turn_always_recorded_witness :
    jsTrim "hi" ≠ "" ∧
    ((∃ rest, (handleChatSend "hi" false [] none (.ok ⟨none, none⟩)).messages
        = [] ++ mkUserMsg "hi" :: rest) ∧
    ((.ok ⟨none, none⟩ : Except Unit ModelResponse) = .ok ⟨none, none⟩ →
      (handleChatSend "hi" false [] none (.ok ⟨none, none⟩)).messages
        = [] ++ [mkUserMsg "hi"])) :=
  ⟨by decide, C2_turn_always_recorded "hi" [] none (.ok ⟨none, none⟩) (by decide)⟩

/-- C3: whenever the turn's try block fails — the model call rejects or an
exception is thrown while handling the response (including during command
dispatch) — the transcript gains exactly one trailing generic-error
assistant entry with the fixed message (any entries before it from partial
dispatch are ordinary action records), and loading is cleared so a later
send is accepted. -/
theorem C3_generic_error_and_idle (input : String) (msgs : List Message) (ggb : Option Engine)
    (model : Except Unit ModelResponse) (hin : jsTrim input ≠ "")
    (hfail : turnFails ggb model = true) :
    (handleChatSend input false msgs ggb model).loading = false ∧
    ∃ acts, (∀ a ∈ acts, a.role = "ai" ∧ a.isAction = true) ∧
      (handleChatSend input false msgs ggb model).messages
        = msgs ++ mkUserMsg input :: (acts ++ [mkAiMsg genericErrorText]) := by
  cases model with
  | error err =>
      refine ⟨by simp [handleChatSend, hin], [], by simp, by simp [handleChatSend, hin]⟩
  | ok resp =>
      have h22 : (processResponse ggb resp).2.2 = true := hfail
      refine ⟨by simp [handleChatSend, hin, h22], (processResponse ggb resp).1, ?_,
        by simp [handleChatSend, hin, h22]⟩
      intro a ha
      exact processResponse_threw_action ggb resp a ha h22

/-- Witness for C3 at a concrete failing model call. -/
theorem C3_generic_error_and_idle_witness :
    (jsTrim "x" ≠ "" ∧ turnFails none (.error ()) = true) ∧
    ((handleChatSend "x" false [] none (.error ())).loading = false ∧
    ∃ acts, (∀ a ∈ acts, a.role = "ai" ∧ a.isAction = true) ∧
      (handleChatSend "x" false [] none (.error ())).messages
        = [] ++ mkUserMsg "x" :: (acts ++ [mkAiMsg genericErrorText])) :=
  ⟨⟨by decide, by decide⟩,
    C3_generic_error_and_idle "x" [] none (.error ()) (by decide) (by decide)⟩

/-- C4: an accepted send appends the user turn right after the existing
transcript, independently of the model outcome (so before the suspension
point), and nothing appended after it carries the user role. -/
theorem C4_user_turn_first (input : String) (msgs : List Message) (ggb : Option Engine)
    (model : Except Unit ModelResponse) (hin : jsTrim input ≠ "") :
    ∃ rest, (handleChatSend input false msgs ggb model).messages
        = msgs ++ mkUserMsg input :: rest ∧ ∀ m ∈ rest, m.role ≠ "user" := by
  cases model with
  | error err =>
      refine ⟨[mkAiMsg genericErrorText], by simp [handleChatSend, hin], ?_⟩
      intro m hm
      simp at hm
      subst hm
      decide
  | ok resp =>
      cases h22 : (processResponse ggb resp).2.2 with
      | false =>
          refine ⟨(processResponse ggb resp).1, by simp [handleChatSend, hin, h22], ?_⟩
          intro m hm
          rw [processResponse_ai ggb resp m hm]
          decide
      | true =>
          refine ⟨(processResponse ggb resp).1 ++ [mkAiMsg genericErrorText],
            by simp [handleChatSend, hin, h22], ?_⟩
          intro m hm
          rcases List.mem_append.mp hm with h | h
          · rw [processResponse_ai ggb resp m h]
            decide
          · simp at h
            subst h
            decide

/-- Witness for C4 at a concrete input. -/
theorem C4_user_turn_first_witness :
    jsTrim "x" ≠ "" ∧
    (∃ rest, (handleChatSend "x" false [] none (.ok ⟨none, some "ok"⟩)).messages
        = [] ++ mkUserMsg "x" :: rest ∧ ∀ m ∈ rest, m.role ≠ "user") :=
  ⟨by decide, C4_user_turn_first "x" [] none (.ok ⟨none, some "ok"⟩) (by decide)⟩

/-- C5: a send with whitespace-only input, or while a turn is in flight,
changes nothing: same transcript, no dispatch, no outgoing model call,
loading untouched. -/
theorem C5_rejected_send_noop (input : String) (loading : Bool) (msgs : List Message)
    (ggb : Option Engine) (model : Except Unit ModelResponse)
    (h : jsTrim input = "" ∨ loading = true) :
    handleChatSend input loading msgs ggb model
      = { messages := msgs, dispatched := [], sentUserText := none,
          sentSnapshot := none, loading := loading } := by
  simp [handleChatSend, h]

/-- Witness for C5 at a concrete whitespace-only input. -/
theorem C5_rejected_send_noop_witness :
    (jsTrim "  " = "" ∨ false = true) ∧
    handleChatSend "  " false [mkUserMsg "old"] none (.ok ⟨none, some "t"⟩)
      = { messages := [mkUserMsg "old"], dispatched := [], sentUserText := none,
          sentSnapshot := none, loading := false } :=
  ⟨by decide,
    C5_rejected_send_noop "  " false [mkUserMsg "old"] none (.ok ⟨none, some "t"⟩) (by decide)⟩

/-- C6: with the engine available and no command throwing, a response with
one invocation whose `commands` field is a list dispatches every command in
the given order and appends exactly one action-record entry, whose text is
the model explanation or the generic fallback, followed only by the prose
text entry when one is present. -/
theorem C6_ordered_dispatch_one_record (input : String) (msgs : List Message) (e : Engine)
    (cmds : List String) (expl : Option String) (txt : Option String)
    (hin : jsTrim input ≠ "")
    (h : ∀ c ∈ cmds, e.evalThrows c = false) :
    (handleChatSend input false msgs (some e)
        (.ok ⟨some [⟨toolName, .arr cmds, expl⟩], txt⟩)).dispatched = cmds ∧
    (handleChatSend input false msgs (some e)
        (.ok ⟨some [⟨toolName, .arr cmds, expl⟩], txt⟩)).messages
      = msgs ++ mkUserMsg input :: mkActionMsg (actionText expl) :: textMsgs txt := by
  have hd := dispatchSeq_ok e cmds h
  constructor <;>
    simp [handleChatSend, hin, processResponse, fcPart, processCalls, processInvocation,
      toolName, hd]

/-- Witness for C6 at the spec's example batch. -/
theorem C6_ordered_dispatch_one_record_witness :
    (jsTrim "x" ≠ "" ∧ (∀ c ∈ ["a := 1", "b := a + 1"], benignEngine.evalThrows c = false)) ∧
    ((handleChatSend "x" false [] (some benignEngine)
        (.ok ⟨some [⟨toolName, .arr ["a := 1", "b := a + 1"], none⟩], none⟩)).dispatched
      = ["a := 1", "b := a + 1"] ∧
    (handleChatSend "x" false [] (some benignEngine)
        (.ok ⟨some [⟨toolName, .arr ["a := 1", "b := a + 1"], none⟩], none⟩)).messages
      = [] ++ mkUserMsg "x" :: mkActionMsg (actionText none) :: textMsgs none) :=
  ⟨⟨by decide, by decide⟩,
    C6_ordered_dispatch_one_record "x" [] benignEngine ["a := 1", "b := a + 1"] none none
      (by decide) (by decide)⟩

/-- C7: an invocation whose `commands` field is not an array is ignored
without aborting the turn — the whole send behaves exactly as if that
invocation were absent, so other invocations and the prose text are still
processed. -/
theorem C7_nonarray_invocation_ignored (input : String) (msgs : List Message)
    (ggb : Option Engine) (l1 l2 : List FunctionCall) (name : String)
    (expl : Option String) (txt : Option String) (hin : jsTrim input ≠ "") :
    handleChatSend input false msgs ggb (.ok ⟨some (l1 ++ ⟨name, .notArr, expl⟩ :: l2), txt⟩)
      = handleChatSend input false msgs ggb (.ok ⟨some (l1 ++ l2), txt⟩) := by
  have hpc := processCalls_drop_notArr ggb l1 l2 name expl
  simp [handleChatSend, hin, processResponse, fcPart, hpc]

/-- Witness for C7: a malformed invocation between a well-formed one and
the prose text changes nothing. -/
theorem C7_nonarray_invocation_ignored_witness :
    jsTrim "x" ≠ "" ∧
    handleChatSend "x" false [] (some benignEngine)
        (.ok ⟨some ([⟨toolName, .arr ["a"], none⟩] ++ ⟨toolName, .notArr, none⟩ :: []), some "t"⟩)
      = handleChatSend "x" false [] (some benignEngine)
        (.ok ⟨some ([⟨toolName, .arr ["a"], none⟩] ++ []), some "t"⟩) :=
  ⟨by decide,
    C7_nonarray_invocation_ignored "x" [] (some benignEngine) [⟨toolName, .arr ["a"], none⟩]
      [] toolName none (some "t") (by decide)⟩

/-- C8 is false on the code: the accepted input is only trim-checked, and
the raw, untrimmed text is what goes into the outgoing request — for the
input padded with spaces it differs from the trimmed input. -/
theorem C8_raw_input_sent :
    jsTrim " hi " ≠ "" ∧
    (handleChatSend " hi " false [] none (.ok ⟨none, none⟩)).sentUserText = some " hi " ∧
    some " hi " ≠ some (jsTrim " hi ") := by
  decide

/-- C8 (amended): for every accepted turn the userText embedded in the
outgoing request is the raw input, which is guaranteed to have a nonempty
trim by the acceptance check, but is not itself trimmed. -/
theorem C8_sent_text_is_raw_input (input : String) (msgs : List Message) (ggb : Option Engine)
    (model : Except Unit ModelResponse) (hin : jsTrim input ≠ "") :
    (handleChatSend input false msgs ggb model).sentUserText = some input ∧
    jsTrim input ≠ "" := by
  refine ⟨?_, hin⟩
  cases model with
  | error err => simp [handleChatSend, hin]
  | ok resp => cases h22 : (processResponse ggb resp).2.2 <;> simp [handleChatSend, hin, h22]

/-- Witness for the amended C8 at a concrete padded input. -/
theorem C8_sent_text_is_raw_input_witness :
    jsTrim " hi " ≠ "" ∧
    ((handleChatSend " hi " false [] none (.ok ⟨none, none⟩)).sentUserText = some " hi " ∧
      jsTrim " hi " ≠ "") :=
  ⟨by decide, C8_sent_text_is_raw_input " hi " [] none (.ok ⟨none, none⟩) (by decide)⟩

/-- C9: with the engine adapter absent, a response carrying invocations
dispatches nothing and produces no action record at all — the transcript
gains only the user turn and the prose text entry if any — and the engine
snapshot placed in the outgoing request is the fixed marker `"Nenhum"`. -/
theorem C9_engine_absent (input : String) (msgs : List Message)
    (fcs : List FunctionCall) (txt : Option String) (hin : jsTrim input ≠ "") :
    (handleChatSend input false msgs none (.ok ⟨some fcs, txt⟩)).dispatched = [] ∧
    (handleChatSend input false msgs none (.ok ⟨some fcs, txt⟩)).messages
      = msgs ++ mkUserMsg input :: textMsgs txt ∧
    (handleChatSend input false msgs none (.ok ⟨some fcs, txt⟩)).sentSnapshot
      = some "Nenhum" := by
  have hpc := processCalls_none fcs
  refine ⟨?_, ?_, ?_⟩ <;>
    simp [handleChatSend, hin, processResponse, fcPart, hpc, objectsSnapshot]

/-- Witness for C9 at a concrete invocation-carrying response. -/
theorem C9_engine_absent_witness :
    jsTrim "x" ≠ "" ∧
    ((handleChatSend "x" false [] none
        (.ok ⟨some [⟨toolName, .arr ["a"], none⟩], some "t"⟩)).dispatched = [] ∧
    (handleChatSend "x" false [] none
        (.ok ⟨some [⟨toolName, .arr ["a"], none⟩], some "t"⟩)).messages
      = [] ++ mkUserMsg "x" :: textMsgs (some "t") ∧
    (handleChatSend "x" false [] none
        (.ok ⟨some [⟨toolName, .arr ["a"], none⟩], some "t"⟩)).sentSnapshot
      = some "Nenhum") :=
  ⟨by decide,
    C9_engine_absent "x" [] [⟨toolName, .arr ["a"], none⟩] (some "t") (by decide)⟩

/-- C10: in the CAS variant, when no command throws, the action record
produced for a batch carries exactly the enrichment values obtained by
taking the commands containing `:=` in order, reading the name left of
`:=` back from the engine, and keeping the value exactly when it is
nonempty and contains `=`; outside CAS mode the results list is empty. -/
theorem C10_cas_enrichment (e : Engine) (appType : String) (cmds : List String)
    (expl : Option String) (h : ∀ c ∈ cmds, e.evalThrows c = false) :
    (casProcessInvocation (some e) appType ⟨toolName, .arr cmds, expl⟩).1
      = [mkActionMsg (casActionText expl
          (if appType = "cas" then
            (cmds.filter fun c => jsIncludes c ":=").filterMap (casReadback e)
          else []))] ∧
    (casProcessInvocation (some e) appType ⟨toolName, .arr cmds, expl⟩).2.1 = cmds := by
  have hd := casDispatch_ok e appType cmds h
  constructor <;> simp [casProcessInvocation, toolName, hd]

/-- Witness for C10: one assignment command with a readable equation value
and one bare command. -/
theorem C10_cas_enrichment_witness :
    (∀ c ∈ ["x := 1+1", "2+2"], casEngine.evalThrows c = false) ∧
    ((casProcessInvocation (some casEngine) "cas"
        ⟨toolName, .arr ["x := 1+1", "2+2"], none⟩).1
      = [mkActionMsg (casActionText none
          (if "cas" = "cas" then
            ((["x := 1+1", "2+2"].filter fun c => jsIncludes c ":=").filterMap
              (casReadback casEngine))
          else []))] ∧
    (casProcessInvocation (some casEngine) "cas"
        ⟨toolName, .arr ["x := 1+1", "2+2"], none⟩).2.1 = ["x := 1+1", "2+2"]) :=
  ⟨by decide,
    C10_cas_enrichment casEngine "cas" ["x := 1+1", "2+2"] none (by decide)⟩

end GeoGebraOmni
